import Mathlib

/-!
# Verification of the math board game (Flask app)

A shallow embedding of the core logic of `app.py`:

* the persistent scoreboard (`record_game_result`, `top_scoreboard`,
  `admin_reset`, `admin_delete_player`, `require_admin`),
* the per-session game state machine (`new_game`, `setup`, `roll`, `answer`),
* the question import parser (`parse_csv_text`).

Conventions of the embedding:

* The SQLite `players` table is a list of rows; the `UNIQUE` constraint on
  `name` is the `StoreWF` predicate (no duplicate names).  SQL statements
  become list operations that act on every row matching the `WHERE` clause,
  and `SELECT ... WHERE name = ?` becomes `List.find?`.
* Python strings are Lean `String`s.  Methods that core Lean implements by
  well-founded recursion (`strip`, slicing, splitting) are re-implemented
  structurally on the character list `String.data` so that all definitions
  evaluate by kernel reduction; the semantics (code-point sequences) agrees
  with Python's.
* Randomness (`random.randint`, `random.choice`) is injected: the die value
  and the index of the drawn question are parameters of `roll`.
* Flask's `flash`/HTTP responses are returned as explicit output values next
  to the new state; the session fields themselves are the `GameState` record.
* Timestamps (`created_at` / `updated_at`) carry no game logic and are
  omitted from the row model.
-/

/-! ## Python / SQLite primitives -/

/-- The whitespace characters stripped by Python's `str.strip()`
(space, tab, linefeed, return, vertical tab, form feed). -/
def isPySpace (c : Char) : Bool :=
  c == ' ' || c == '\t' || c == '\n' || c == '\r' || c == '\x0b' || c == '\x0c'

/-- `str.strip()` on a character list: drop whitespace from both ends. -/
def stripList (cs : List Char) : List Char :=
  ((cs.dropWhile isPySpace).reverse.dropWhile isPySpace).reverse

/-- Python's `str.strip()`. -/
def pyStrip (s : String) : String :=
  ⟨stripList s.data⟩

/-- Python's `s[:n]` slice (truncation to at most `n` characters). -/
def pyTake (s : String) (n : Nat) : String :=
  ⟨s.data.take n⟩

/-- Split a character list at every occurrence of the separator character,
keeping empty segments, as Python's `str.split(sep)` does for a one-character
separator. -/
def splitOnChar (sep : Char) : List Char → List (List Char)
  | [] => [[]]
  | c :: cs =>
    match splitOnChar sep cs with
    | [] => if c == sep then [[], []] else [[c]]
    | r :: rs => if c == sep then [] :: r :: rs else (c :: r) :: rs

/-- Split a string on a one-character separator. -/
def splitStr (sep : Char) (s : String) : List String :=
  (splitOnChar sep s.data).map (fun l => ⟨l⟩)

/-- Byte-order / code-point lexicographic comparison of character lists:
the order SQLite's default `BINARY` collation uses for `TEXT` values
(UTF-8 byte order agrees with code-point order). -/
def charListLe : List Char → List Char → Bool
  | [], _ => true
  | _ :: _, [] => false
  | a :: as, b :: bs =>
    if a.val.toNat < b.val.toNat then true
    else if b.val.toNat < a.val.toNat then false
    else charListLe as bs

/-- `a ≤ b` in SQLite's ordering of `TEXT` values. -/
def strLe (a b : String) : Bool :=
  charListLe a.data b.data

/-- Python truthiness of an optional string (`None` and `""` are falsy). -/
def truthyStr : Option String → Bool
  | none => false
  | some s => s != ""

/-- Python's `x or y` on optional strings: `y` when `x` is falsy. -/
def orFalsy (a b : Option String) : Option String :=
  if truthyStr a then a else b

/-! ## ScoreStore: the `players` table -/

/-- One row of the `players` table (timestamps omitted, see the header). -/
structure PlayerRow where
  name : String
  wins : Nat
  games_played : Nat
  deriving DecidableEq

/-- The `players` table: a list of rows.  `StoreWF` states the `UNIQUE`
constraint on `name`. -/
abbrev Store := List PlayerRow

/-- `SELECT * FROM players WHERE name = ?` (first matching row). -/
def getRow (s : Store) (n : String) : Option PlayerRow :=
  s.find? (fun r => r.name == n)

/-- Whether a row with the given name exists. -/
def hasRow (s : Store) (n : String) : Bool :=
  (getRow s n).isSome

/-- The stored `wins` of a player, `0` if absent. -/
def winsOf (s : Store) (n : String) : Nat :=
  ((getRow s n).map PlayerRow.wins).getD 0

/-- The stored `games_played` of a player, `0` if absent. -/
def gamesOf (s : Store) (n : String) : Nat :=
  ((getRow s n).map PlayerRow.games_played).getD 0

/-- The list of stored names in table order. -/
def storeNames (s : Store) : List String :=
  s.map PlayerRow.name

/-- The `UNIQUE` constraint on `players.name`. -/
def StoreWF (s : Store) : Prop :=
  (storeNames s).Nodup

/-- Number of rows carrying a given name. -/
def rowCount (s : Store) (n : String) : Nat :=
  (s.filter (fun r => r.name == n)).length

/-- `INSERT OR IGNORE INTO players (name, wins, games_played) VALUES (?, 0, 0)`:
append a fresh zero-counter row unless the name is already present. -/
def insertOrIgnore (s : Store) (n : String) : Store :=
  if hasRow s n then s
  else s ++ [{ name := n, wins := 0, games_played := 0 }]

/-- `UPDATE players SET games_played = games_played + 1 WHERE name = ?`. -/
def bumpGames (s : Store) (n : String) : Store :=
  s.map (fun r => if r.name == n then { r with games_played := r.games_played + 1 } else r)

/-- `UPDATE players SET wins = wins + 1 WHERE name = ?`. -/
def bumpWins (s : Store) (n : String) : Store :=
  s.map (fun r => if r.name == n then { r with wins := r.wins + 1 } else r)

/-- `record_game_result(winner_name, participant_names)` from `app.py`:
insert-or-ignore a row per participant, then bump `games_played` once per
participant list entry (the `executemany`), then bump `wins` for the winner. -/
def record_game_result (winner_name : String) (participant_names : List String)
    (s : Store) : Store :=
  bumpWins
    (participant_names.foldl bumpGames
      (participant_names.foldl insertOrIgnore s))
    winner_name

/-- `ROUND(100.0 * wins / games_played, 1)` expressed in tenths of a percent:
rounding to one decimal, half away from zero (the operands are nonnegative). -/
def winRateTenths (w g : Nat) : Nat :=
  (2000 * w + g) / (2 * g)

/-- One row of the `top_scoreboard` result set. -/
structure ScoreRow where
  name : String
  wins : Nat
  games_played : Nat
  win_rate : ℚ

/-- The `ORDER BY wins DESC, name ASC` comparison of `top_scoreboard`. -/
def RowLE (a b : PlayerRow) : Prop :=
  b.wins < a.wins ∨ (a.wins = b.wins ∧ strLe a.name b.name = true)

instance : DecidableRel RowLE := fun a b => by
  unfold RowLE; infer_instance

/-- The derived `win_rate` column:
`CASE WHEN games_played > 0 THEN ROUND(100.0 * wins / games_played, 1) ELSE 0 END`. -/
def winRate (w g : Nat) : ℚ :=
  if 0 < g then (winRateTenths w g : ℚ) / 10 else 0

/-- `top_scoreboard(limit)` from `app.py`: order by `wins` descending with
name-ascending tie break, truncate to `limit`, and augment each row with the
derived `win_rate`. -/
def top_scoreboard (s : Store) (limit : Nat) : List ScoreRow :=
  ((List.insertionSort RowLE s).take limit).map
    (fun r => { name := r.name, wins := r.wins, games_played := r.games_played,
                win_rate := winRate r.wins r.games_played })

/-! ## Admin routes -/

/-- Outcome of an admin HTTP request. -/
inductive HttpResult where
  | forbidden
  | badRequest
  | ok (body : String)
  deriving DecidableEq

/-- `require_admin` from `app.py`, as the decision it enforces:
the request may proceed iff `ADMIN_TOKEN` is configured (Python-truthy) and
the client token (query parameter, falling back to the `X-Admin-Token`
header) equals it.  `abort(403)` corresponds to `false`. -/
def require_admin (admin_token args_token header_token : Option String) : Bool :=
  let token := orFalsy args_token header_token
  match admin_token with
  | none => false
  | some t => if t == "" then false else token == some t

/-- `/admin/reset`: delete all players, guarded by `require_admin`. -/
def admin_reset (admin_token args_token header_token : Option String)
    (s : Store) : Store × HttpResult :=
  if require_admin admin_token args_token header_token then
    ([], .ok "✅ Scoreboard cleared.")
  else (s, .forbidden)

/-- `/admin/delete_player`: delete one player by exact name, guarded by
`require_admin`, rejecting a missing or blank `name` argument. -/
def admin_delete_player (admin_token args_token header_token args_name : Option String)
    (s : Store) : Store × HttpResult :=
  if require_admin admin_token args_token header_token then
    let name := pyStrip (args_name.getD "")
    if name == "" then (s, .badRequest)
    else (s.filter (fun r => !(r.name == name)), .ok ("🗑️ Deleted player: " ++ name))
  else (s, .forbidden)

/-! ## GameState: the per-session state machine -/

/-- A question/answer pair (`{"q": ..., "a": ...}`). -/
structure Question where
  q : String
  a : String
  deriving DecidableEq

/-- The fixed default question pool `DEFAULT_QUESTIONS`. -/
def DEFAULT_QUESTIONS : List Question :=
  [ { q := "2 + 2", a := "4" },
    { q := "9 × 4", a := "36" },
    { q := "7 × 8", a := "56" },
    { q := "9 ÷ 3", a := "3" },
    { q := "√81", a := "9" },
    { q := "√49", a := "7" },
    { q := "12 ÷ 4", a := "3" },
    { q := "15 + 5", a := "20" },
    { q := "11 × 8", a := "88" },
    { q := "14²", a := "196" } ]

def BOARD_SIZE : Nat := 24

def MAX_PLAYERS : Nat := 4

def MAX_QUESTIONS_IN_SESSION : Nat := 300

/-- A session player (`{"name": ..., "pos": ...}`). -/
structure Token where
  name : String
  pos : Nat
  deriving DecidableEq

/-- The Flask session fields the game uses. -/
structure GameState where
  players : List Token
  turn : Nat
  awaiting_answer : Bool
  current_question : Option Question
  last_roll : Option Nat
  message : String
  questions : List Question
  deriving DecidableEq

/-- The notification sent to the score store when a game completes:
the call `record_game_result(winner, participants)`. -/
structure RecordEvent where
  winner : String
  participants : List String
  deriving DecidableEq

/-- `new_game()` from `app.py`. -/
def new_game : GameState :=
  { players := [], turn := 0, awaiting_answer := false,
    current_question := none, last_roll := none,
    message := "Set up players to start.",
    questions := DEFAULT_QUESTIONS }

/-- `current_player()` from `app.py`: `None` with no players, otherwise
`players[turn % len(players)]`. -/
def current_player (g : GameState) : Option Token :=
  if g.players.isEmpty then none
  else g.players.get? (g.turn % g.players.length)

/-- `next_turn()` from `app.py`. -/
def next_turn (g : GameState) : GameState :=
  { g with turn := (g.turn + 1) % g.players.length }

/-- The value read from form field `name{i}`, defaulting to `""`
(`request.form.get(f"name{i}", "")`). -/
def formGet (form : List (String × String)) (key : String) : String :=
  (form.lookup key).getD ""

/-- The name-collection loop of `setup()`: for `i` in `1..MAX_PLAYERS`, strip
`name{i}` and keep the first 20 characters when the stripped value is
non-empty. -/
def collectNames (form : List (String × String)) : List String :=
  (List.range MAX_PLAYERS).filterMap (fun i =>
    let name := pyStrip (formGet form ("name" ++ toString (i + 1)))
    if name == "" then none else some (pyTake name 20))

/-- `setup()` from `app.py`.  The second component is the `flash` warning,
`none` on success. -/
def setup (g : GameState) (form : List (String × String)) :
    GameState × Option String :=
  let names := collectNames form
  if names.length == 0 then (g, some "Enter at least one player name.")
  else if MAX_PLAYERS < names.length then (g, some "Maximum 4 players.")
  else
    ({ g with players := names.map (fun n => { name := n, pos := 0 }),
              turn := 0,
              message := "Game ready! " ++ names.headD "" ++ "&#39;s turn. Roll to start." },
     none)

/-- `roll()` from `app.py`.  `die` stands for `random.randint(1, 6)` and
`qIdx` for the index `random.choice` picks into the question pool; both
random draws are injected as parameters.  The second component is the
`flash` warning. -/
def roll (g : GameState) (die : Nat) (qIdx : Nat) : GameState × Option String :=
  if g.players.isEmpty then (g, some "Set up players first.")
  else if g.awaiting_answer then (g, none)
  else
    match g.questions.get? (qIdx % g.questions.length) with
    | none => (g, none)
      -- unreachable: `random.choice` on an empty pool raises, and the pool is
      -- seeded non-empty and only ever extended
    | some question =>
      ({ g with last_roll := some die,
                current_question := some question,
                awaiting_answer := true,
                message := (match current_player g with
                            | some p => p.name
                            | none => "")
                  ++ " rolled a " ++ toString die ++ ". Answer to move!" },
       none)

/-- `answer()` from `app.py`.  The second component is the `RecordEvent`
passed to `record_game_result` when the move ends the game, `none`
otherwise. -/
def answer (g : GameState) (form_answer : String) : GameState × Option RecordEvent :=
  if g.awaiting_answer then
    match g.current_question, current_player g with
    | some question, some player =>
      let user_answer := pyStrip form_answer
      let correct_answer := pyStrip question.a
      let r := g.last_roll.getD 0
      let newPos :=
        if user_answer == correct_answer then min BOARD_SIZE (player.pos + r)
        else max 0 (player.pos - 1)
      let msg :=
        if user_answer == correct_answer then
          "Correct, " ++ player.name ++ "! Move forward " ++ toString r ++ "."
        else
          "Oops, " ++ player.name ++ "! Correct was " ++ correct_answer ++ ". Move back 1."
      let g1 : GameState :=
        { g with players := g.players.set (g.turn % g.players.length)
                              { player with pos := newPos },
                 awaiting_answer := false,
                 current_question := none,
                 last_roll := none,
                 message := msg }
      if BOARD_SIZE ≤ newPos then
        (g1, some { winner := player.name,
                    participants := g1.players.map Token.name })
      else
        let g2 := next_turn g1
        ({ g2 with message := g2.message ++ " Next: "
              ++ (match current_player g2 with
                  | some p => p.name
                  | none => "") ++ "." },
         none)
    | _, _ => (g, none)
      -- unreachable while `awaiting_answer` is set: `roll` always records a
      -- question and requires a non-empty player list (Python would raise here)
  else (g, none)

/-! ## QuestionBank: CSV import -/

/-- One `csv` line split into cells.  The embedding models `csv.DictReader`
on plain comma-separated text (no quoting), which is the format the
repository's import feature documents (`headers q,a or question,answer`). -/
def csvCells (line : String) : List String :=
  splitStr ',' line

/-- `row.get(key)` of `csv.DictReader`: header names paired with the row's
cells; a key beyond the row's length is absent (`None`). -/
def rowGet (header fields : List String) (key : String) : Option String :=
  (header.zip fields).lookup key

/-- The row loop of `parse_csv_text`: keep a row iff both the question and
the answer are non-empty after stripping, reading column `q` with fallback
`question` and column `a` with fallback `answer` (Python's `or` chain). -/
def parseRows (header : List String) : List String → List Question
  | [] => []
  | line :: rest =>
    let fields := csvCells line
    let q := pyStrip ((orFalsy (rowGet header fields "q") (rowGet header fields "question")).getD "")
    let a := pyStrip ((orFalsy (rowGet header fields "a") (rowGet header fields "answer")).getD "")
    if q != "" && a != "" then
      { q := q, a := a } :: parseRows header rest
    else parseRows header rest

/-- `parse_csv_text(text)` from `app.py`: strip the input, return no items
when it is empty, otherwise read the first line as the header and filter the
remaining lines through the row loop.  Blank lines are skipped, as
`csv.DictReader` does. -/
def parse_csv_text (text : String) : List Question :=
  let t := pyStrip text
  if t == "" then []
  else
    match (splitStr '\n' t).filter (fun l => l != "") with
    | [] => []
    | headerLine :: body => parseRows (csvCells headerLine) body

/-! ## Lemmas about the score store -/

theorem getRow_map_nameFixed (f : PlayerRow → PlayerRow)
    (hf : ∀ r, (f r).name = r.name) (s : Store) (n : String) :
    getRow (s.map f) n = (getRow s n).map f := by
  unfold getRow
  rw [List.find?_map]
  have hpf : ((fun r : PlayerRow => r.name == n) ∘ f) = (fun r : PlayerRow => r.name == n) := by
    funext r
    simp [Function.comp, hf r]
  rw [hpf]

theorem bumpGames_nameFixed (m : String) (r : PlayerRow) :
    ((fun r : PlayerRow =>
        if r.name == m then { r with games_played := r.games_played + 1 } else r) r).name
      = r.name := by
  by_cases h : r.name == m <;> simp [h]

theorem bumpWins_nameFixed (m : String) (r : PlayerRow) :
    ((fun r : PlayerRow =>
        if r.name == m then { r with wins := r.wins + 1 } else r) r).name
      = r.name := by
  by_cases h : r.name == m <;> simp [h]

theorem getRow_bumpGames (s : Store) (m n : String) :
    getRow (bumpGames s m) n
      = (getRow s n).map
          (fun r => if r.name == m then { r with games_played := r.games_played + 1 } else r) :=
  getRow_map_nameFixed _ (bumpGames_nameFixed m) s n

theorem getRow_bumpWins (s : Store) (m n : String) :
    getRow (bumpWins s m) n
      = (getRow s n).map
          (fun r => if r.name == m then { r with wins := r.wins + 1 } else r) :=
  getRow_map_nameFixed _ (bumpWins_nameFixed m) s n

theorem name_of_getRow {s : Store} {n : String} {r : PlayerRow}
    (h : getRow s n = some r) : r.name = n := by
  have := List.find?_some h
  simpa using this

theorem hasRow_bumpGames (s : Store) (m n : String) :
    hasRow (bumpGames s m) n = hasRow s n := by
  unfold hasRow
  rw [getRow_bumpGames]
  cases getRow s n <;> rfl

theorem hasRow_bumpWins (s : Store) (m n : String) :
    hasRow (bumpWins s m) n = hasRow s n := by
  unfold hasRow
  rw [getRow_bumpWins]
  cases getRow s n <;> rfl

theorem winsOf_bumpGames (s : Store) (m n : String) :
    winsOf (bumpGames s m) n = winsOf s n := by
  unfold winsOf
  rw [getRow_bumpGames]
  cases h : getRow s n with
  | none => rfl
  | some r => by_cases hm : r.name = m <;> simp [hm]

theorem gamesOf_bumpWins (s : Store) (m n : String) :
    gamesOf (bumpWins s m) n = gamesOf s n := by
  unfold gamesOf
  rw [getRow_bumpWins]
  cases h : getRow s n with
  | none => rfl
  | some r => by_cases hm : r.name = m <;> simp [hm]

theorem gamesOf_bumpGames_ne (s : Store) {m n : String} (h : n ≠ m) :
    gamesOf (bumpGames s m) n = gamesOf s n := by
  unfold gamesOf
  rw [getRow_bumpGames]
  cases hr : getRow s n with
  | none => rfl
  | some r =>
    have hn := name_of_getRow hr
    simp [hn, h]

theorem gamesOf_bumpGames_self (s : Store) (n : String) (h : hasRow s n = true) :
    gamesOf (bumpGames s n) n = gamesOf s n + 1 := by
  unfold gamesOf
  rw [getRow_bumpGames]
  cases hr : getRow s n with
  | none => simp [hasRow, hr] at h
  | some r =>
    have hn := name_of_getRow hr
    simp [hn]

theorem winsOf_bumpWins_ne (s : Store) {m n : String} (h : n ≠ m) :
    winsOf (bumpWins s m) n = winsOf s n := by
  unfold winsOf
  rw [getRow_bumpWins]
  cases hr : getRow s n with
  | none => rfl
  | some r =>
    have hn := name_of_getRow hr
    simp [hn, h]

theorem winsOf_bumpWins_self (s : Store) (n : String) :
    winsOf (bumpWins s n) n = winsOf s n + (if hasRow s n then 1 else 0) := by
  unfold winsOf
  rw [getRow_bumpWins]
  cases hr : getRow s n with
  | none => simp [hasRow, hr]
  | some r =>
    have hn := name_of_getRow hr
    simp [hasRow, hr, hn]

theorem getRow_insertOrIgnore (s : Store) (m n : String) :
    getRow (insertOrIgnore s m) n
      = ((getRow s n).or (if hasRow s m then none else if m == n then some ⟨m, 0, 0⟩ else none)) := by
  unfold insertOrIgnore
  by_cases h : hasRow s m
  · simp [h, Option.or]
    cases getRow s n <;> rfl
  · simp only [h, if_neg, Bool.false_eq_true, ite_false]
    unfold getRow
    rw [List.find?_append]
    simp [List.find?]
    cases getRow s n <;> cases hm : (m == n) <;> simp [getRow] at * <;> simp [hm]

theorem hasRow_insertOrIgnore (s : Store) (m n : String) :
    hasRow (insertOrIgnore s m) n = (hasRow s n || m == n) := by
  unfold hasRow
  rw [getRow_insertOrIgnore]
  by_cases h : hasRow s m
  · cases hr : getRow s n with
    | none =>
      simp only [h, if_true, Option.or]
      -- here `hasRow s n = false`; if `m == n` then `m = n` so `hasRow s m` gives a row for `n`
      cases hm : (m == n) with
      | true =>
        have : m = n := by simpa using hm
        subst this
        simp [hasRow, hr] at h
      | false => simp [hasRow, hr]
    | some r => simp [hasRow, hr, Option.or]
  · cases hr : getRow s n <;> cases hm : (m == n) <;>
      simp_all [hasRow, Option.or]

theorem gamesOf_insertOrIgnore (s : Store) (m n : String) :
    gamesOf (insertOrIgnore s m) n = gamesOf s n := by
  unfold gamesOf
  rw [getRow_insertOrIgnore]
  cases hr : getRow s n with
  | some r => simp [Option.or]
  | none =>
    by_cases h : hasRow s m <;> cases hm : (m == n) <;> simp [h, hm, Option.or]

theorem winsOf_insertOrIgnore (s : Store) (m n : String) :
    winsOf (insertOrIgnore s m) n = winsOf s n := by
  unfold winsOf
  rw [getRow_insertOrIgnore]
  cases hr : getRow s n with
  | some r => simp [Option.or]
  | none =>
    by_cases h : hasRow s m <;> cases hm : (m == n) <;> simp [h, hm, Option.or]

theorem hasRow_foldl_insertOrIgnore (ps : List String) :
    ∀ (s : Store) (n : String),
      hasRow (ps.foldl insertOrIgnore s) n = (hasRow s n || ps.contains n) := by
  induction ps with
  | nil => intro s n; simp
  | cons p t ih =>
    intro s n
    simp only [List.foldl_cons, ih, hasRow_insertOrIgnore, List.contains_cons]
    have hpn : (p == n) = (n == p) := by
      cases hp : (p == n) <;> cases hq : (n == p) <;> simp [beq_iff_eq] at hp hq <;> simp_all
    rw [hpn, Bool.or_assoc]

theorem gamesOf_foldl_insertOrIgnore (ps : List String) :
    ∀ (s : Store) (n : String),
      gamesOf (ps.foldl insertOrIgnore s) n = gamesOf s n := by
  induction ps with
  | nil => intro s n; rfl
  | cons p t ih =>
    intro s n
    simp only [List.foldl_cons, ih, gamesOf_insertOrIgnore]

theorem winsOf_foldl_insertOrIgnore (ps : List String) :
    ∀ (s : Store) (n : String),
      winsOf (ps.foldl insertOrIgnore s) n = winsOf s n := by
  induction ps with
  | nil => intro s n; rfl
  | cons p t ih =>
    intro s n
    simp only [List.foldl_cons, ih, winsOf_insertOrIgnore]

theorem hasRow_foldl_bumpGames (ps : List String) :
    ∀ (s : Store) (n : String),
      hasRow (ps.foldl bumpGames s) n = hasRow s n := by
  induction ps with
  | nil => intro s n; rfl
  | cons p t ih =>
    intro s n
    simp only [List.foldl_cons, ih, hasRow_bumpGames]

theorem winsOf_foldl_bumpGames (ps : List String) :
    ∀ (s : Store) (n : String),
      winsOf (ps.foldl bumpGames s) n = winsOf s n := by
  induction ps with
  | nil => intro s n; rfl
  | cons p t ih =>
    intro s n
    simp only [List.foldl_cons, ih, winsOf_bumpGames]

theorem gamesOf_foldl_bumpGames (ps : List String) :
    ∀ (s : Store) (n : String), (n ∈ ps → hasRow s n = true) →
      gamesOf (ps.foldl bumpGames s) n = gamesOf s n + ps.count n := by
  induction ps with
  | nil => intro s n _; simp
  | cons p t ih =>
    intro s n h
    simp only [List.foldl_cons]
    by_cases hn : n = p
    · subst hn
      have hrow : hasRow s n = true := h (List.mem_cons_self n t)
      rw [ih (bumpGames s n) n (fun _ => by rw [hasRow_bumpGames]; exact hrow)]
      rw [gamesOf_bumpGames_self s n hrow, List.count_cons_self]
      omega
    · rw [ih (bumpGames s p) n
        (fun hm => by rw [hasRow_bumpGames]; exact h (List.mem_cons_of_mem p hm))]
      rw [gamesOf_bumpGames_ne s hn, List.count_cons_of_ne hn]

/-- `games_played` grows by exactly one per occurrence of the name in the
participant list, for every name (zero occurrences for non-participants). -/
theorem gamesOf_record (w : String) (ps : List String) (s : Store) (n : String) :
    gamesOf (record_game_result w ps s) n = gamesOf s n + ps.count n := by
  unfold record_game_result
  rw [gamesOf_bumpWins]
  by_cases hn : n ∈ ps
  · have hrow : n ∈ ps → hasRow (ps.foldl insertOrIgnore s) n = true := by
      intro hm
      rw [hasRow_foldl_insertOrIgnore]
      simp only [Bool.or_eq_true]
      right
      simpa using hm
    rw [gamesOf_foldl_bumpGames ps _ n hrow, gamesOf_foldl_insertOrIgnore]
  · have hc : ps.count n = 0 := List.count_eq_zero.mpr hn
    rw [gamesOf_foldl_bumpGames ps _ n (fun hm => absurd hm hn)]
    rw [gamesOf_foldl_insertOrIgnore, hc]

theorem hasRow_record (w : String) (ps : List String) (s : Store) (n : String) :
    hasRow (record_game_result w ps s) n = (hasRow s n || ps.contains n) := by
  unfold record_game_result
  rw [hasRow_bumpWins, hasRow_foldl_bumpGames, hasRow_foldl_insertOrIgnore]

/-- The winner's `wins` counter goes up by one, provided the winner has a row
(being a participant, or being stored already). -/
theorem winsOf_record_winner (w : String) (ps : List String) (s : Store)
    (h : w ∈ ps ∨ hasRow s w = true) :
    winsOf (record_game_result w ps s) w = winsOf s w + 1 := by
  unfold record_game_result
  have hrow : hasRow (ps.foldl bumpGames (ps.foldl insertOrIgnore s)) w = true := by
    rw [hasRow_foldl_bumpGames, hasRow_foldl_insertOrIgnore]
    rcases h with h | h
    · simp only [Bool.or_eq_true]
      right
      simpa using h
    · simp [h]
  rw [winsOf_bumpWins_self, hrow, winsOf_foldl_bumpGames, winsOf_foldl_insertOrIgnore]
  simp

/-- Nobody other than the winner gains a win. -/
theorem winsOf_record_other (w : String) (ps : List String) (s : Store)
    {n : String} (h : n ≠ w) :
    winsOf (record_game_result w ps s) n = winsOf s n := by
  unfold record_game_result
  rw [winsOf_bumpWins_ne _ h, winsOf_foldl_bumpGames, winsOf_foldl_insertOrIgnore]

/-- A `wins` counter grows by at most one per call, and only for the winner. -/
theorem winsOf_record_le (w : String) (ps : List String) (s : Store) (n : String) :
    winsOf (record_game_result w ps s) n ≤ winsOf s n + (if n = w then 1 else 0) := by
  by_cases h : n = w
  · subst h
    unfold record_game_result
    rw [winsOf_bumpWins_self, winsOf_foldl_bumpGames, winsOf_foldl_insertOrIgnore]
    split <;> simp
  · rw [winsOf_record_other w ps s h]
    simp

theorem storeNames_bumpGames (s : Store) (m : String) :
    storeNames (bumpGames s m) = storeNames s := by
  unfold storeNames bumpGames
  rw [List.map_map]
  apply List.map_congr_left
  intro r _
  exact bumpGames_nameFixed m r

theorem storeNames_bumpWins (s : Store) (m : String) :
    storeNames (bumpWins s m) = storeNames s := by
  unfold storeNames bumpWins
  rw [List.map_map]
  apply List.map_congr_left
  intro r _
  exact bumpWins_nameFixed m r

theorem storeNames_foldl_bumpGames (ps : List String) :
    ∀ s : Store, storeNames (ps.foldl bumpGames s) = storeNames s := by
  induction ps with
  | nil => intro s; rfl
  | cons p t ih => intro s; simp only [List.foldl_cons, ih, storeNames_bumpGames]

theorem hasRow_iff_mem_names (s : Store) (n : String) :
    hasRow s n = true ↔ n ∈ storeNames s := by
  unfold hasRow getRow storeNames
  rw [List.find?_isSome]
  constructor
  · rintro ⟨r, hr, hname⟩
    exact List.mem_map.mpr ⟨r, hr, (by simpa using hname)⟩
  · rintro h
    rcases List.mem_map.mp h with ⟨r, hr, hname⟩
    exact ⟨r, hr, by simp [hname]⟩

theorem StoreWF_insertOrIgnore (s : Store) (m : String) (h : StoreWF s) :
    StoreWF (insertOrIgnore s m) := by
  unfold insertOrIgnore
  by_cases hm : hasRow s m
  · simpa [hm]
  · have hnotmem : m ∉ storeNames s := fun hmem =>
      hm ((hasRow_iff_mem_names s m).mpr hmem)
    simp only [hm, Bool.false_eq_true, if_false]
    unfold StoreWF storeNames at *
    simp [List.nodup_append, h, hnotmem]

theorem StoreWF_foldl_insertOrIgnore (ps : List String) :
    ∀ s : Store, StoreWF s → StoreWF (ps.foldl insertOrIgnore s) := by
  induction ps with
  | nil => intro s h; exact h
  | cons p t ih =>
    intro s h
    exact ih _ (StoreWF_insertOrIgnore s p h)

/-- `record_game_result` preserves the `UNIQUE` constraint on names. -/
theorem StoreWF_record (w : String) (ps : List String) (s : Store) (h : StoreWF s) :
    StoreWF (record_game_result w ps s) := by
  unfold record_game_result StoreWF
  rw [storeNames_bumpWins, storeNames_foldl_bumpGames]
  exact StoreWF_foldl_insertOrIgnore ps s h

theorem rowCount_eq_count_names (s : Store) (n : String) :
    rowCount s n = (storeNames s).count n := by
  unfold rowCount storeNames
  rw [← List.countP_eq_length_filter, List.count, List.countP_map]
  rfl

/-- On a well-formed store, a stored name has exactly one row. -/
theorem rowCount_eq_one (s : Store) (n : String) (hWF : StoreWF s)
    (h : hasRow s n = true) : rowCount s n = 1 := by
  rw [rowCount_eq_count_names]
  exact List.count_eq_one_of_mem hWF ((hasRow_iff_mem_names s n).mp h)

/-! ## Claims C1, C2, C10: scoreboard bookkeeping -/

/-- **C1** (amended): for every call `recordGameResult(winnerName,
participantNames)` with `participantNames` a non-empty duplicate-free list on
a store satisfying the `UNIQUE` name constraint, and with `winnerName` among
the participants: afterwards every participant has exactly one player row
(created with zero counters if absent; calling again still leaves exactly one
row), every participant's `games_played` is one greater than before,
`winnerName`'s `wins` is one greater than before, and no other player's
`wins` changed.  (The original claim, without the winner-is-a-participant
proviso, fails: see the counterexample.) -/
theorem C1_record_game_result (w : String) (ps : List String) (s : Store)
    (_hps : ps ≠ []) (hnd : ps.Nodup) (hWF : StoreWF s) (hw : w ∈ ps) :
    (∀ n ∈ ps,
        hasRow (record_game_result w ps s) n = true
        ∧ rowCount (record_game_result w ps s) n = 1
        ∧ gamesOf (record_game_result w ps s) n = gamesOf s n + 1
        ∧ rowCount (record_game_result w ps (record_game_result w ps s)) n = 1)
    ∧ winsOf (record_game_result w ps s) w = winsOf s w + 1
    ∧ (∀ n, n ≠ w → winsOf (record_game_result w ps s) n = winsOf s n) := by
  refine ⟨?_, winsOf_record_winner w ps s (Or.inl hw),
    fun n h => winsOf_record_other w ps s h⟩
  intro n hn
  have hrow : hasRow (record_game_result w ps s) n = true := by
    rw [hasRow_record]
    simp only [Bool.or_eq_true]
    right
    simpa using hn
  have hWF1 := StoreWF_record w ps s hWF
  refine ⟨hrow, rowCount_eq_one _ n hWF1 hrow, ?_, ?_⟩
  · rw [gamesOf_record, List.count_eq_one_of_mem hnd hn]
  · have hrow2 : hasRow (record_game_result w ps (record_game_result w ps s)) n = true := by
      rw [hasRow_record]
      simp only [Bool.or_eq_true]
      right
      simpa using hn
    exact rowCount_eq_one _ n (StoreWF_record w ps _ hWF1) hrow2

/-- **C1**, counterexample to the claim as stated: calling
`record_game_result` with a winner that is not a participant (and has no
row) does not increment the winner's `wins` — the `UPDATE` matches no row,
so the claim's "winnerName's wins is one greater than before" fails even
though the participant list is non-empty. -/
theorem C1_counterexample :
    ¬ winsOf (record_game_result "X" ["A"] []) "X" = winsOf ([] : Store) "X" + 1 := by
  decide

/-- **C1**, witness: the amended theorem applied to the concrete call
`record_game_result("A", ["A", "B"])` on the empty store. -/
theorem C1_witness :
    gamesOf (record_game_result "A" ["A", "B"] []) "A" = gamesOf ([] : Store) "A" + 1
    ∧ winsOf (record_game_result "A" ["A", "B"] []) "A" = winsOf ([] : Store) "A" + 1
    ∧ rowCount (record_game_result "A" ["A", "B"] []) "B" = 1
    ∧ winsOf (record_game_result "A" ["A", "B"] []) "B" = winsOf ([] : Store) "B" := by
  have h := C1_record_game_result "A" ["A", "B"] []
    (by decide) (by decide) List.nodup_nil (by decide)
  exact ⟨(h.1 "A" (by decide)).2.2.1, h.2.1, (h.1 "B" (by decide)).2.1,
    h.2.2 "B" (by decide)⟩

/-- One game-completion call: the winner and the participant list. -/
structure GameCall where
  winner : String
  participants : List String
  deriving DecidableEq

/-- Apply one `record_game_result` call to the store. -/
def applyCall (s : Store) (c : GameCall) : Store :=
  record_game_result c.winner c.participants s

/-- Run a sequence of `record_game_result` calls from the empty store. -/
def runCalls (calls : List GameCall) : Store :=
  calls.foldl applyCall []

theorem gamesOf_foldl_applyCall (calls : List GameCall) :
    ∀ (s : Store) (n : String),
      gamesOf (calls.foldl applyCall s) n
        = gamesOf s n + (calls.map (fun c => c.participants.count n)).sum := by
  induction calls with
  | nil => intro s n; simp
  | cons c t ih =>
    intro s n
    simp only [List.foldl_cons, List.map_cons, List.sum_cons]
    rw [ih]
    unfold applyCall
    rw [gamesOf_record]
    omega

theorem winsLe_foldl_applyCall (calls : List GameCall) :
    ∀ s : Store, (∀ c ∈ calls, c.winner ∈ c.participants) →
      (∀ n, winsOf s n ≤ gamesOf s n) →
      ∀ n, winsOf (calls.foldl applyCall s) n ≤ gamesOf (calls.foldl applyCall s) n := by
  induction calls with
  | nil => intro s _ hinv n; exact hinv n
  | cons c t ih =>
    intro s hc hinv n
    simp only [List.foldl_cons]
    apply ih _ (fun d hd => hc d (List.mem_cons_of_mem c hd))
    intro m
    have h1 := winsOf_record_le c.winner c.participants s m
    have h2 := gamesOf_record c.winner c.participants s m
    have h3 := hinv m
    unfold applyCall
    by_cases hm : m = c.winner
    · rw [if_pos hm] at h1
      have hcount : 0 < c.participants.count m := by
        rw [hm]
        exact List.count_pos_iff.mpr (hc c (List.mem_cons_self c t))
      omega
    · rw [if_neg hm] at h1
      omega

/-- **C2** (amended): over every sequence of `record_game_result` calls from
the empty store in which each call's winner is among its participants, every
player's stored `games_played` equals the total number of occurrences of
that player's name across the calls' participant lists (which is the number
of calls they appear in whenever no call repeats a name), and
`wins ≤ games_played` holds for every player after every call (i.e. after
every prefix of the sequence).  (The original claim counted one game per
*call* even when a participant list repeats a name; see the
counterexample.) -/
theorem C2_record_sequences (calls : List GameCall)
    (h : ∀ c ∈ calls, c.winner ∈ c.participants) :
    (∀ n, gamesOf (runCalls calls) n
        = (calls.map (fun c => c.participants.count n)).sum)
    ∧ (∀ k n, winsOf (runCalls (calls.take k)) n
        ≤ gamesOf (runCalls (calls.take k)) n) := by
  constructor
  · intro n
    unfold runCalls
    rw [gamesOf_foldl_applyCall calls [] n]
    simp [gamesOf, getRow]
  · intro k n
    apply winsLe_foldl_applyCall
    · intro c hc
      exact h c (List.take_subset k calls hc)
    · intro m
      exact Nat.le_refl 0

/-- **C2**, counterexample to the claim as stated: a single call whose
participant list repeats the name `"A"` (the winner) leaves
`games_played = 2`, not the number of calls (`1`) in which `"A"`
participated. -/
theorem C2_counterexample :
    "A" ∈ ["A", "A"]
    ∧ gamesOf (runCalls [{ winner := "A", participants := ["A", "A"] }]) "A" ≠ 1 := by
  decide

/-- **C2**, witness: the amended theorem applied to the concrete two-call
sequence in which `A` beats `B` and then `B` beats `A`. -/
theorem C2_witness :
    gamesOf (runCalls [⟨"A", ["A", "B"]⟩, ⟨"B", ["A", "B"]⟩]) "A"
      = (([⟨"A", ["A", "B"]⟩, ⟨"B", ["A", "B"]⟩] : List GameCall).map
          (fun c => c.participants.count "A")).sum
    ∧ winsOf (runCalls (([⟨"A", ["A", "B"]⟩, ⟨"B", ["A", "B"]⟩] : List GameCall).take 2)) "B"
        ≤ gamesOf (runCalls (([⟨"A", ["A", "B"]⟩, ⟨"B", ["A", "B"]⟩] : List GameCall).take 2)) "B" := by
  have h := C2_record_sequences [⟨"A", ["A", "B"]⟩, ⟨"B", ["A", "B"]⟩] (by decide)
  exact ⟨h.1 "A", h.2 2 "B"⟩

/-- **C10**: when a participant list repeats a name, only one row exists for
that name afterwards (on a store honoring the `UNIQUE` constraint), but its
`games_played` grows by one per occurrence of the name in the list — so two
session players sharing a name are tallied as one player with double
participation. -/
theorem C10_duplicate_participants (w n : String) (ps : List String) (s : Store)
    (hWF : StoreWF s) (hn : n ∈ ps) :
    rowCount (record_game_result w ps s) n = 1
    ∧ gamesOf (record_game_result w ps s) n = gamesOf s n + ps.count n := by
  have hrow : hasRow (record_game_result w ps s) n = true := by
    rw [hasRow_record]
    simp only [Bool.or_eq_true]
    right
    simpa using hn
  exact ⟨rowCount_eq_one _ n (StoreWF_record w ps s hWF) hrow,
    gamesOf_record w ps s n⟩

/-- **C10**, witness: `record_game_result("P", ["P", "P"])` on the empty
store leaves exactly one row named `"P"` and `games_played` two. -/
theorem C10_witness :
    rowCount (record_game_result "P" ["P", "P"] []) "P" = 1
    ∧ gamesOf (record_game_result "P" ["P", "P"] []) "P"
        = gamesOf ([] : Store) "P" + (["P", "P"].count "P") :=
  C10_duplicate_participants "P" "P" ["P", "P"] [] List.nodup_nil (by decide)

/-! ## Claims C3, C4, C6, C7: the game state machine -/

/-- **C3**: in a state awaiting an answer with pending roll `r`, pending
question `question` and current player `player`, `answer` sets the current
player's position to `min(BOARD_SIZE, pos + r)` when the stripped submission
matches the stripped expected answer and to `max(0, pos - 1)` otherwise
(the final conjunct identifies the truncated natural subtraction with the
integer `max(0, pos - 1)` of the claim), and clears the pending question,
the pending roll and the awaiting flag in both cases. -/
theorem C3_answer_moves (g : GameState) (question : Question) (r : Nat)
    (player : Token) (ua : String)
    (hA : g.awaiting_answer = true)
    (hq : g.current_question = some question)
    (hr : g.last_roll = some r)
    (hp : current_player g = some player) :
    ((answer g ua).1.players
        = g.players.set (g.turn % g.players.length)
            { player with pos :=
                (if pyStrip ua == pyStrip question.a then min BOARD_SIZE (player.pos + r)
                 else max 0 (player.pos - 1)) })
    ∧ (answer g ua).1.current_question = none
    ∧ (answer g ua).1.last_roll = none
    ∧ (answer g ua).1.awaiting_answer = false
    ∧ ((max 0 (player.pos - 1) : Nat) : Int) = max 0 ((player.pos : Int) - 1) := by
  have hint : ((max 0 (player.pos - 1) : Nat) : Int) = max 0 ((player.pos : Int) - 1) := by
    cases hpos : player.pos with
    | zero => simp
    | succ k =>
      push_cast
      rw [add_sub_cancel_right]
  refine ⟨?_, ?_, ?_, ?_, hint⟩ <;>
    · simp only [answer, hA, hq, hr, hp, if_true, Option.getD_some]
      split <;> split <;> simp [next_turn]

/-- The spec's worked example for `answer`: position 22, board size 24,
pending roll 5, correct answer pending. -/
def exampleC3 : GameState :=
  { players := [{ name := "A", pos := 22 }, { name := "B", pos := 3 }],
    turn := 0, awaiting_answer := true,
    current_question := some { q := "2 + 2", a := "4" },
    last_roll := some 5, message := "",
    questions := DEFAULT_QUESTIONS }

/-- **C3**, witness: at position 22 with roll 5 a correct answer yields
position `min(24, 27) = 24`, the pending state is cleared, and (checked
directly on the code) the game is over — the win is recorded. -/
theorem C3_witness :
    (answer exampleC3 "4").1.players = [{ name := "A", pos := 24 }, { name := "B", pos := 3 }]
    ∧ (answer exampleC3 "4").1.current_question = none
    ∧ (answer exampleC3 "4").1.last_roll = none
    ∧ (answer exampleC3 "4").1.awaiting_answer = false
    ∧ (answer exampleC3 "4").2 = some { winner := "A", participants := ["A", "B"] } := by
  have h := C3_answer_moves exampleC3 { q := "2 + 2", a := "4" } 5
    { name := "A", pos := 22 } "4" rfl rfl rfl rfl
  refine ⟨?_, h.2.1, h.2.2.1, h.2.2.2.1, by decide⟩
  rw [h.1]
  decide

/-- **C7**: out-of-sequence actions leave the session state unchanged:
`roll` is a state no-op with no players or while an answer is pending, and
`answer` with no pending question returns the state unchanged with no
record event. -/
theorem C7_out_of_sequence (g : GameState) (die qIdx : Nat) (ua : String) :
    (g.players = [] → (roll g die qIdx).1 = g)
    ∧ (g.awaiting_answer = true → (roll g die qIdx).1 = g)
    ∧ (g.awaiting_answer = false → answer g ua = (g, none)) := by
  refine ⟨?_, ?_, ?_⟩
  · intro h
    simp [roll, h]
  · intro h
    unfold roll
    by_cases hp : g.players.isEmpty <;> simp [hp, h]
  · intro h
    simp [answer, h]

/-- **C7**, witness: the theorem applied to the fresh session (no players,
not awaiting) and to a state that is awaiting an answer. -/
theorem C7_witness :
    (roll new_game 4 0).1 = new_game
    ∧ (roll exampleC3 4 0).1 = exampleC3
    ∧ answer new_game "4" = (new_game, none) := by
  have h1 := C7_out_of_sequence new_game 4 0 "4"
  have h2 := C7_out_of_sequence exampleC3 4 0 "4"
  exact ⟨h1.1 rfl, h2.2.1 rfl, h1.2.2 rfl⟩

/-- **C6** (amended): the name-collection loop of `setup` reads only the four
form fields `name1`..`name4`, so at most four names can ever be collected and
the "more than 4" rejection branch is unreachable — a submission carrying a
fifth name is accepted using the first four (see the counterexample).  Zero
collected names is rejected as a no-op with a user-visible warning.  With
1–4 collected names, `setup` installs one token per name at position 0 with
the name stripped and truncated to 20 characters, sets the turn index to 0,
and leaves the pending-answer flag as it was (so the game awaits a roll
exactly when no answer was pending, as in the fresh session). -/
theorem C6_setup (g : GameState) (form : List (String × String)) :
    (collectNames form).length ≤ MAX_PLAYERS
    ∧ (collectNames form = [] →
        setup g form = (g, some "Enter at least one player name."))
    ∧ (collectNames form ≠ [] →
        (setup g form).2 = none
        ∧ (setup g form).1.players
            = (collectNames form).map (fun n => { name := n, pos := 0 })
        ∧ (setup g form).1.turn = 0
        ∧ (setup g form).1.awaiting_answer = g.awaiting_answer)
    ∧ (∀ n ∈ collectNames form, ∃ i, i < MAX_PLAYERS
        ∧ pyStrip (formGet form ("name" ++ toString (i + 1))) ≠ ""
        ∧ n = pyTake (pyStrip (formGet form ("name" ++ toString (i + 1)))) 20) := by
  have hlen : (collectNames form).length ≤ MAX_PLAYERS := by
    calc (collectNames form).length
        ≤ (List.range MAX_PLAYERS).length := List.length_filterMap_le _ _
      _ = MAX_PLAYERS := List.length_range MAX_PLAYERS
  refine ⟨hlen, ?_, ?_, ?_⟩
  · intro h
    simp [setup, h]
  · intro hne
    have h0 : ((collectNames form).length == 0) = false := by
      simpa using fun h => hne (List.length_eq_zero.mp h)
    have h4 : ¬ MAX_PLAYERS < (collectNames form).length := Nat.not_lt.mpr hlen
    simp [setup, h0, h4]
  · intro n hn
    rcases List.mem_filterMap.mp hn with ⟨i, hi, hf⟩
    refine ⟨i, List.mem_range.mp hi, ?_, ?_⟩
    · intro hempty
      rw [hempty] at hf
      simp at hf
    · by_cases hcond : (pyStrip (formGet form ("name" ++ toString (i + 1))) == "") = true
      · rw [if_pos hcond] at hf
        cases hf
      · rw [if_neg hcond] at hf
        exact (Option.some.inj hf).symm

/-- **C6**, counterexample to the claim as stated: a submission carrying
five names is not rejected — `setup` reads only `name1`..`name4`, flashes no
warning, and starts the game with the first four names. -/
theorem C6_counterexample :
    (setup new_game
        [("name1", "Ann"), ("name2", "Ben"), ("name3", "Cal"),
         ("name4", "Dee"), ("name5", "Eli")]).2 = none
    ∧ (setup new_game
        [("name1", "Ann"), ("name2", "Ben"), ("name3", "Cal"),
         ("name4", "Dee"), ("name5", "Eli")]).1.players
        = [{ name := "Ann", pos := 0 }, { name := "Ben", pos := 0 },
           { name := "Cal", pos := 0 }, { name := "Dee", pos := 0 }] := by
  decide

/-- A concrete two-player form: one name needs stripping, the other is
longer than 20 characters. -/
def formC6 : List (String × String) :=
  [("name1", "  Alice  "), ("name2", "BobBobBobBobBobBobBobBob")]

/-- **C6**, witness: the amended theorem applied to `formC6` on the fresh
session. -/
theorem C6_witness :
    (setup new_game formC6).2 = none
    ∧ (setup new_game formC6).1.players
        = (collectNames formC6).map (fun n => { name := n, pos := 0 })
    ∧ (setup new_game formC6).1.turn = 0
    ∧ (setup new_game formC6).1.awaiting_answer = new_game.awaiting_answer
    ∧ (∃ i, i < MAX_PLAYERS
        ∧ pyStrip (formGet formC6 ("name" ++ toString (i + 1))) ≠ ""
        ∧ "Alice" = pyTake (pyStrip (formGet formC6 ("name" ++ toString (i + 1)))) 20) := by
  have h := C6_setup new_game formC6
  have h3 := h.2.2.1 (by decide)
  exact ⟨h3.1, h3.2.1, h3.2.2.1, h3.2.2.2, h.2.2.2 "Alice" (by decide)⟩

/-- A state one correct answer away from winning: `A` at position 22 with a
pending roll of 2 (`22 + 2 = 24 = BOARD_SIZE`). -/
def stateC4 : GameState :=
  { players := [{ name := "A", pos := 22 }, { name := "B", pos := 0 }],
    turn := 0, awaiting_answer := true,
    current_question := some { q := "7 × 8", a := "56" },
    last_roll := some 2, message := "",
    questions := DEFAULT_QUESTIONS }

/-- The session state right after the game has been completed and recorded. -/
def stateC4over : GameState := (answer stateC4 "56").1

/-- **C4**: the first half of the claim holds at this completed game — the
win is recorded with the mover as winner and all current player names as
participants, and the turn index is not advanced — but the exactly-once half
fails: the session never enters a terminal state, so a further `roll` is
accepted (no warning, a new question is drawn) and a second correct answer
invokes `record_game_result` again for the same completed game. -/
theorem C4_double_record :
    (answer stateC4 "56").2 = some { winner := "A", participants := ["A", "B"] }
    ∧ (answer stateC4 "56").1.turn = stateC4.turn
    ∧ (roll stateC4over 3 1).2 = none
    ∧ (roll stateC4over 3 1).1.awaiting_answer = true
    ∧ (answer (roll stateC4over 3 1).1 "36").2
        = some { winner := "A", participants := ["A", "B"] } := by
  decide

/-! ## Claim C8: CSV import parsing -/

theorem parseRows_mem (header : List String) :
    ∀ (rows : List String) (it : Question), it ∈ parseRows header rows →
      it.q ≠ "" ∧ it.a ≠ "" := by
  intro rows
  induction rows with
  | nil => intro it h; cases h
  | cons line rest ih =>
    intro it h
    unfold parseRows at h
    by_cases hc : (pyStrip ((orFalsy (rowGet header (csvCells line) "q")
          (rowGet header (csvCells line) "question")).getD "") != ""
        && pyStrip ((orFalsy (rowGet header (csvCells line) "a")
          (rowGet header (csvCells line) "answer")).getD "") != "") = true
    · rw [if_pos hc] at h
      rcases List.mem_cons.mp h with h | h
      · subst h
        simpa [Bool.and_eq_true, bne_iff_ne] using hc
      · exact ih it h
    · rw [if_neg hc] at h
      exact ih it h

theorem parseRows_eq_filterMap (header : List String) :
    ∀ rows : List String,
      parseRows header rows = rows.filterMap (fun line =>
        let fields := csvCells line
        let q := pyStrip ((orFalsy (rowGet header fields "q") (rowGet header fields "question")).getD "")
        let a := pyStrip ((orFalsy (rowGet header fields "a") (rowGet header fields "answer")).getD "")
        if q ≠ "" ∧ a ≠ "" then some { q := q, a := a } else none) := by
  intro rows
  induction rows with
  | nil => rfl
  | cons line rest ih =>
    unfold parseRows
    rw [List.filterMap_cons, ih]
    by_cases hq : pyStrip ((orFalsy (rowGet header (csvCells line) "q")
        (rowGet header (csvCells line) "question")).getD "") = "" <;>
      by_cases ha : pyStrip ((orFalsy (rowGet header (csvCells line) "a")
        (rowGet header (csvCells line) "answer")).getD "") = "" <;>
      simp [hq, ha]

/-- **C8**: `parse_csv_text` keeps exactly the rows whose question field and
answer field are both non-empty after stripping (reading headers `q`/`a`
with fallback `question`/`answer`, case-sensitively): every returned item
has non-empty fields, the row loop equals a filter over the data rows, empty
or whitespace-only input yields zero items, a batch with one row missing its
answer still imports the valid rows of the batch, and a header differing
only by case (`Q,A`) matches nothing. -/
theorem C8_parse_csv_text :
    (∀ text : String, ∀ it ∈ parse_csv_text text, it.q ≠ "" ∧ it.a ≠ "")
    ∧ (∀ (header : List String) (rows : List String),
        parseRows header rows = rows.filterMap (fun line =>
          let fields := csvCells line
          let q := pyStrip ((orFalsy (rowGet header fields "q") (rowGet header fields "question")).getD "")
          let a := pyStrip ((orFalsy (rowGet header fields "a") (rowGet header fields "answer")).getD "")
          if q ≠ "" ∧ a ≠ "" then some { q := q, a := a } else none))
    ∧ parse_csv_text "" = []
    ∧ parse_csv_text " \n " = []
    ∧ parse_csv_text "question,answer\nQ1,A1\nQ2,\nQ3,A3"
        = [{ q := "Q1", a := "A1" }, { q := "Q3", a := "A3" }]
    ∧ parse_csv_text "q,a\n5+5,10" = [{ q := "5+5", a := "10" }]
    ∧ parse_csv_text "Q,A\n1,2" = [] := by
  refine ⟨?_, parseRows_eq_filterMap, by decide, by decide, by decide, by decide, by decide⟩
  intro text it h
  unfold parse_csv_text at h
  by_cases ht : (pyStrip text == "") = true
  · rw [if_pos ht] at h
    cases h
  · rw [if_neg ht] at h
    rcases hsplit : (splitStr '\n' (pyStrip text)).filter (fun l => l != "") with _ | ⟨headerLine, body⟩
    · rw [hsplit] at h
      cases h
    · rw [hsplit] at h
      exact parseRows_mem (csvCells headerLine) body it h

/-- **C8**, witness: the general non-emptiness clause applied to the spec's
batch example and its first imported item. -/
theorem C8_witness :
    ({ q := "Q1", a := "A1" } : Question).q ≠ ""
    ∧ ({ q := "Q1", a := "A1" } : Question).a ≠ "" :=
  C8_parse_csv_text.1 "question,answer\nQ1,A1\nQ2,\nQ3,A3"
    { q := "Q1", a := "A1" } (by decide)

/-! ## Claim C9: admin authentication -/

/-- **C9**: with no admin token configured (unset, or empty and hence
Python-falsy), every administrative operation is rejected as forbidden with
the store unmodified, whatever token the client supplies; with a configured
token, any request whose resolved client token differs is likewise rejected
before any mutation. -/
theorem C9_admin_guard (admin_token args_token header_token args_name : Option String)
    (s : Store) :
    (truthyStr admin_token = false →
        admin_reset admin_token args_token header_token s = (s, .forbidden)
        ∧ admin_delete_player admin_token args_token header_token args_name s
            = (s, .forbidden))
    ∧ (∀ t : String, admin_token = some t →
        orFalsy args_token header_token ≠ some t →
        admin_reset admin_token args_token header_token s = (s, .forbidden)
        ∧ admin_delete_player admin_token args_token header_token args_name s
            = (s, .forbidden)) := by
  constructor
  · intro h
    have hreq : require_admin admin_token args_token header_token = false := by
      unfold require_admin
      cases admin_token with
      | none => rfl
      | some t =>
        have : (t != "") = false := by simpa [truthyStr] using h
        have ht : (t == "") = true := by
          cases hb : (t == "") <;> simp_all
        simp [ht]
    simp [admin_reset, admin_delete_player, hreq]
  · intro t ht hne
    have hreq : require_admin admin_token args_token header_token = false := by
      subst ht
      unfold require_admin
      by_cases he : (t == "") = true
      · simp [he]
      · have : (orFalsy args_token header_token == some t) = false := by
          cases hb : (orFalsy args_token header_token == some t)
          · rfl
          · exact absurd (by simpa using hb) hne
        simp [he, this]
    simp [admin_reset, admin_delete_player, hreq]

/-- **C9**, witness: the theorem applied with no configured token (client
supplies one anyway) and with a configured token and a wrong client token. -/
theorem C9_witness :
    admin_reset none (some "secret") none [{ name := "A", wins := 1, games_played := 1 }]
      = ([{ name := "A", wins := 1, games_played := 1 }], .forbidden)
    ∧ admin_delete_player (some "secret") (some "wrong") none (some "A")
        [{ name := "A", wins := 1, games_played := 1 }]
      = ([{ name := "A", wins := 1, games_played := 1 }], .forbidden) := by
  have h1 := C9_admin_guard none (some "secret") none (some "A")
    [{ name := "A", wins := 1, games_played := 1 }]
  have h2 := C9_admin_guard (some "secret") (some "wrong") none (some "A")
    [{ name := "A", wins := 1, games_played := 1 }]
  exact ⟨(h1.1 (by decide)).1, (h2.2 "secret" rfl (by decide)).2⟩

/-! ## Claim C5: the scoreboard query -/

theorem charListLe_total : ∀ as bs : List Char,
    charListLe as bs = true ∨ charListLe bs as = true := by
  intro as
  induction as with
  | nil => intro bs; left; rfl
  | cons a as ih =>
    intro bs
    cases bs with
    | nil => right; rfl
    | cons b bs =>
      unfold charListLe
      by_cases hab : a.val.toNat < b.val.toNat
      · left; simp [hab]
      · by_cases hba : b.val.toNat < a.val.toNat
        · right; simp [hba]
        · rcases ih bs with h | h
          · left; simp [hab, hba, h]
          · right; simp [hab, hba, h]

theorem charListLe_trans : ∀ as bs cs : List Char,
    charListLe as bs = true → charListLe bs cs = true → charListLe as cs = true := by
  intro as
  induction as with
  | nil => intro bs cs _ _; rfl
  | cons a as ih =>
    intro bs cs h1 h2
    cases bs with
    | nil => simp [charListLe] at h1
    | cons b bs =>
      cases cs with
      | nil => simp [charListLe] at h2
      | cons c cs =>
        unfold charListLe at h1 h2 ⊢
        by_cases hab : a.val.toNat < b.val.toNat
        · by_cases hbc : b.val.toNat < c.val.toNat
          · have hac : a.val.toNat < c.val.toNat := by omega
            simp [hac]
          · by_cases hcb : c.val.toNat < b.val.toNat
            · simp [hbc, hcb] at h2
            · have hac : a.val.toNat < c.val.toNat := by omega
              simp [hac]
        · by_cases hba : b.val.toNat < a.val.toNat
          · simp [hab, hba] at h1
          · simp only [hab, hba, ite_false, if_false] at h1
            by_cases hbc : b.val.toNat < c.val.toNat
            · have hac : a.val.toNat < c.val.toNat := by omega
              simp [hac]
            · by_cases hcb : c.val.toNat < b.val.toNat
              · simp [hbc, hcb] at h2
              · simp only [hbc, hcb, ite_false, if_false] at h2
                have hac1 : ¬ a.val.toNat < c.val.toNat := by omega
                have hac2 : ¬ c.val.toNat < a.val.toNat := by omega
                simp only [hac1, hac2, ite_false, if_false]
                exact ih bs cs h1 h2

instance : IsTrans PlayerRow RowLE where
  trans := by
    intro a b c hab hbc
    unfold RowLE strLe at *
    rcases hab with h1 | ⟨h1, h1'⟩ <;> rcases hbc with h2 | ⟨h2, h2'⟩
    · exact Or.inl (lt_trans h2 h1)
    · exact Or.inl (h2 ▸ h1)
    · exact Or.inl (h1 ▸ h2)
    · exact Or.inr ⟨h1.trans h2, charListLe_trans _ _ _ h1' h2'⟩

instance : IsTotal PlayerRow RowLE where
  total := by
    intro a b
    unfold RowLE strLe
    rcases Nat.lt_trichotomy a.wins b.wins with h | h | h
    · exact Or.inr (Or.inl h)
    · rcases charListLe_total a.name.data b.name.data with hc | hc
      · exact Or.inl (Or.inr ⟨h, hc⟩)
      · exact Or.inr (Or.inr ⟨h.symm, hc⟩)
    · exact Or.inl (Or.inl h)

theorem floor_natCast_div (a b : ℕ) (hb : 0 < b) :
    ⌊(a : ℚ) / (b : ℚ)⌋ = ((a / b : ℕ) : ℤ) := by
  have hb' : (0 : ℚ) < b := by exact_mod_cast hb
  rw [Int.floor_eq_iff]
  constructor
  · exact_mod_cast Nat.cast_div_le
  · rw [div_lt_iff₀ hb']
    have hN : a < (a / b + 1) * b := by
      have h1 := Nat.div_add_mod a b
      have h2 := Nat.mod_lt a hb
      calc a = b * (a / b) + a % b := h1.symm
        _ < b * (a / b) + b := by omega
        _ = (a / b + 1) * b := by ring
    exact_mod_cast hN

/-- The SQLite `ROUND` call of `top_scoreboard`, in tenths, is exactly the
round-to-nearest of `(100 * wins / games_played) * 10`. -/
theorem winRateTenths_eq_round (w g : ℕ) (hg : 0 < g) :
    ((winRateTenths w g : ℕ) : ℤ) = round ((100 * (w : ℚ) / (g : ℚ)) * 10) := by
  have hg' : (0 : ℚ) < g := by exact_mod_cast hg
  have hkey : 100 * (w : ℚ) / (g : ℚ) * 10 + 1 / 2
      = ((2000 * w + g : ℕ) : ℚ) / ((2 * g : ℕ) : ℚ) := by
    push_cast
    field_simp
    ring
  rw [round_eq, hkey, floor_natCast_div _ _ (by omega)]
  rfl

/-- **C5**: `top_scoreboard(limit)` returns at most `limit` rows, sorted by
`wins` descending with ties broken by name ascending; every returned row is
a stored player augmented with
`win_rate = games_played > 0 ? round(100 * wins / games_played, 1 decimal) : 0`
(stated with Mathlib's `round`, scaled by ten); and the spec's example
A(wins 3), B(wins 3), C(wins 5) comes back in order C, A, B.  The query is
read-only by construction: `top_scoreboard` is a pure function of the
store. -/
theorem C5_top_scoreboard :
    (∀ (s : Store) (limit : Nat),
        (top_scoreboard s limit).length ≤ limit
        ∧ (top_scoreboard s limit).Pairwise
            (fun a b : ScoreRow => b.wins < a.wins ∨ (a.wins = b.wins ∧ strLe a.name b.name = true))
        ∧ (∀ row ∈ top_scoreboard s limit, ∃ p ∈ s,
            row.name = p.name ∧ row.wins = p.wins ∧ row.games_played = p.games_played
            ∧ row.win_rate = (if 0 < p.games_played then
                ((round ((100 * (p.wins : ℚ) / (p.games_played : ℚ)) * 10) : ℤ) : ℚ) / 10
              else 0)))
    ∧ (top_scoreboard
        [{ name := "A", wins := 3, games_played := 4 },
         { name := "B", wins := 3, games_played := 5 },
         { name := "C", wins := 5, games_played := 6 }] 50).map ScoreRow.name
      = ["C", "A", "B"] := by
  constructor
  · intro s limit
    refine ⟨?_, ?_, ?_⟩
    · unfold top_scoreboard
      rw [List.length_map, List.length_take]
      exact min_le_left _ _
    · have hs : (List.insertionSort RowLE s).Pairwise RowLE :=
        List.sorted_insertionSort RowLE s
      have ht : ((List.insertionSort RowLE s).take limit).Pairwise RowLE :=
        List.Pairwise.sublist (List.take_sublist _ _) hs
      unfold top_scoreboard
      rw [List.pairwise_map]
      exact ht.imp (fun hab => hab)
    · intro row hrow
      unfold top_scoreboard at hrow
      rcases List.mem_map.mp hrow with ⟨p, hp, heq⟩
      have hp' : p ∈ List.insertionSort RowLE s := List.take_subset _ _ hp
      have hps : p ∈ s := (List.perm_insertionSort RowLE s).mem_iff.mp hp'
      refine ⟨p, hps, by rw [← heq], by rw [← heq], by rw [← heq], ?_⟩
      rw [← heq]
      show winRate p.wins p.games_played = _
      unfold winRate
      by_cases hg : 0 < p.games_played
      · rw [if_pos hg, if_pos hg, ← winRateTenths_eq_round p.wins p.games_played hg,
          Int.cast_natCast]
      · rw [if_neg hg, if_neg hg]
  · decide

/-- A one-player store for the `top_scoreboard` witness. -/
def storeC5 : Store := [{ name := "A", wins := 1, games_played := 2 }]

/-- The row `top_scoreboard` derives from `storeC5` (win rate 50.0%). -/
def rowC5 : ScoreRow :=
  { name := "A", wins := 1, games_played := 2, win_rate := winRate 1 2 }

/-- **C5**, witness: the theorem applied to the one-player store with
limit 1, instantiating the per-row clause at its single result row. -/
theorem C5_witness :
    (top_scoreboard storeC5 1).length ≤ 1
    ∧ (∃ p ∈ storeC5, rowC5.name = p.name ∧ rowC5.wins = p.wins
        ∧ rowC5.games_played = p.games_played
        ∧ rowC5.win_rate = (if 0 < p.games_played then
            ((round ((100 * (p.wins : ℚ) / (p.games_played : ℚ)) * 10) : ℤ) : ℚ) / 10
          else 0)) := by
  have h := C5_top_scoreboard.1 storeC5 1
  refine ⟨h.1, h.2.2 rowC5 ?_⟩
  show rowC5 ∈ [rowC5]
  exact List.mem_singleton_self rowC5
